import Mathlib

/- Verification of the Voice20 repository: the audio resampler/codec, the
playback scheduler, the voice-session lifecycle (src/components/VoiceAssistant.tsx),
the offline sync queue (src/App.tsx) and the note storage layer
(storage service, src/unnamed/part_005), via a shallow embedding in Lean.

Modelling conventions:
- Audio samples, clock times and durations are exact rationals (the source
  manipulates them as JS numbers; none of the claims under study concerns
  floating-point rounding).
- Byte values and sample counts are naturals, 16-bit sample values are
  integers with the wrap-around of ECMAScript ToInt16 made explicit.
- Stateful component code is embedded as explicit state-passing functions;
  externally visible releases of resources (node.disconnect(), track.stop(),
  ctx.close(), session.close(), source.stop()) are logged as `Action` values
  so that "released exactly once" is expressible.
- Fallible code returns Except. -/

namespace Voice20

/-! ### JavaScript numeric primitives on exact rationals -/

/-- JavaScript Math.floor restricted to exact rationals. -/
def jsFloor (q : ℚ) : ℤ := Rat.floor q

/-- JavaScript Math.round restricted to exact rationals: floor(q + 1/2),
rounding halves toward positive infinity. -/
def jsRound (q : ℚ) : ℤ := Rat.floor (q + 1/2)

/-- Truncation toward zero, the integer conversion step of ECMAScript
ToInt16 (applied when a number is stored into an Int16Array). -/
def ratTrunc (q : ℚ) : ℤ := if 0 ≤ q then Rat.floor q else -(Rat.floor (-q))

/-- ECMAScript ToInt16: truncate toward zero, reduce modulo 2^16 and map the
result into the signed 16-bit range. This is what assignment into an
Int16Array performs. -/
def jsToInt16 (q : ℚ) : ℤ :=
  let m := ratTrunc q % 65536
  if m < 32768 then m else m - 65536

/-- Math.max(-1, Math.min(1, x)), the clamping used by downsampleTo16k. -/
def clamp (q : ℚ) : ℚ := max (-1) (min 1 q)

/-- Helper: the value of Rat.floor pinned down by a two-sided bound. -/
theorem ratFloor_eq (n : ℤ) (q : ℚ) (h1 : (n : ℚ) ≤ q) (h2 : q < n + 1) :
    Rat.floor q = n := by
  have hn : n ≤ q.floor := Rat.le_floor.mpr h1
  have hn2 : ¬ (n + 1 ≤ q.floor) := by
    intro h
    have := Rat.le_floor.mp h
    push_cast at this
    exact absurd h2 (not_lt.mpr this)
  omega

theorem ratFloor_intCast (n : ℤ) : Rat.floor ((n : ℚ)) = n := by
  apply ratFloor_eq n _ le_rfl
  linarith

theorem ratTrunc_intCast (n : ℤ) : ratTrunc ((n : ℚ)) = n := by
  rw [ratTrunc]
  by_cases h : (0 : ℚ) ≤ (n : ℚ)
  · rw [if_pos h, ratFloor_intCast]
  · rw [if_neg h]
    have : (-(n : ℚ)) = ((-n : ℤ) : ℚ) := by push_cast; ring
    rw [this, ratFloor_intCast]
    ring

/-- Truncation toward zero stays within a symmetric integer bound. -/
theorem ratTrunc_bounds (B : ℤ) (q : ℚ) (hB : 0 ≤ B) (h1 : -(B : ℚ) ≤ q)
    (h2 : q ≤ (B : ℚ)) : -B ≤ ratTrunc q ∧ ratTrunc q ≤ B := by
  rw [ratTrunc]
  by_cases h : 0 ≤ q
  · rw [if_pos h]
    have hlo : (0 : ℤ) ≤ Rat.floor q := Rat.le_floor.mpr (by exact_mod_cast h)
    have hhi : ¬ (B + 1 ≤ Rat.floor q) := by
      intro hc
      have := Rat.le_floor.mp hc
      push_cast at this
      linarith
    omega
  · rw [if_neg h]
    have hq : 0 ≤ -q := by linarith
    have hlo : (0 : ℤ) ≤ Rat.floor (-q) := Rat.le_floor.mpr (by exact_mod_cast hq)
    have hhi : ¬ (B + 1 ≤ Rat.floor (-q)) := by
      intro hc
      have := Rat.le_floor.mp hc
      push_cast at this
      linarith
    omega

/-- Storing a number whose truncation already lies in the signed 16-bit range
into an Int16Array does not wrap. -/
theorem jsToInt16_eq_ratTrunc (q : ℚ) (h1 : -32768 ≤ ratTrunc q)
    (h2 : ratTrunc q < 32768) : jsToInt16 q = ratTrunc q := by
  rw [jsToInt16]
  split <;> omega

/-! ### Resampler/Codec: downsampleTo16k (VoiceAssistant.tsx lines 33-61) -/

/-- Shallow embedding of downsampleTo16k. For input already at 16 kHz, every
sample is clamped to [-1, 1], scaled by 32767 and stored into an Int16Array
(ECMAScript ToInt16, i.e. truncation toward zero). Otherwise the input is cut
into ratio-sized windows (ratio = sampleRate/16000); each output sample is the
arithmetic mean of the window samples, falling back to input[offset] for an
empty window, then clamped, scaled and stored. The window for output index i
is [floor(i*ratio), min(floor((i+1)*ratio), input.length)). For an empty
window with offset out of range, JS reads undefined, the arithmetic yields
NaN, and ToInt16(NaN) = 0; the model's getD default 0 yields the same 0. -/
def downsampleTo16k (input : List ℚ) (sampleRate : ℕ) : List ℤ :=
  if sampleRate = 16000 then
    input.map (fun s => jsToInt16 (clamp s * 32767))
  else
    let ratio : ℚ := (sampleRate : ℚ) / 16000
    let newLength : ℕ := (jsRound ((input.length : ℚ) / ratio)).toNat
    (List.range newLength).map (fun (i : ℕ) =>
      let offset := (jsFloor ((i : ℚ) * ratio)).toNat
      let nextOffset := (jsFloor (((i : ℚ) + 1) * ratio)).toNat
      let window := (List.range' offset (min nextOffset input.length - offset)).map
        (fun j => input.getD j 0)
      let avg : ℚ :=
        if window.length ≠ 0 then window.sum / (window.length : ℚ)
        else input.getD offset 0
      jsToInt16 (clamp avg * 32767))

theorem jsRound_natCast (n : ℕ) : jsRound ((n : ℚ)) = n := by
  rw [jsRound]
  apply ratFloor_eq (n : ℤ) <;> push_cast <;> linarith

/-- C4: for every input rate R > 0 and input frame, the output of
downsampleTo16k has exactly round(L * 16000 / R) samples, where L is the
input length. -/
theorem encode_output_length (input : List ℚ) (R : ℕ) (hR : 0 < R) :
    (downsampleTo16k input R).length =
      (jsRound ((input.length : ℚ) * 16000 / (R : ℚ))).toNat := by
  by_cases h : R = 16000
  · subst h
    rw [downsampleTo16k, if_pos rfl, List.length_map]
    have he : ((input.length : ℚ) * 16000 / (((16000 : ℕ)) : ℚ)) = (input.length : ℚ) := by
      push_cast
      field_simp
    rw [he, jsRound_natCast, Int.toNat_natCast]
  · rw [downsampleTo16k, if_neg h, List.length_map, List.length_range]
    congr 2
    rw [div_div_eq_mul_div]

/-- C4 witness: a 48 kHz, 4096-sample frame yields 1365 encoded samples. -/
theorem encode_output_length_witness :
    (downsampleTo16k (List.replicate 4096 0) 48000).length = 1365 := by
  rw [encode_output_length (List.replicate 4096 0) 48000 (by norm_num)]
  rw [List.length_replicate]
  have h : jsRound ((((4096 : ℕ)) : ℚ) * 16000 / (((48000 : ℕ)) : ℚ)) = 1365 := by
    rw [jsRound]
    apply ratFloor_eq <;> norm_num
  rw [h]
  rfl

theorem ratTrunc_half_32767 : ratTrunc ((1 / 2 : ℚ) * 32767) = 16383 := by
  rw [ratTrunc, if_pos (by norm_num)]
  apply ratFloor_eq <;> norm_num

theorem clamp_of_mem (s : ℚ) (h1 : -1 ≤ s) (h2 : s ≤ 1) : clamp s = s := by
  rw [clamp, min_eq_right h2, max_eq_right h1]

/-- Helper: the 16 kHz branch of downsampleTo16k, samplewise. -/
theorem downsample16k_getD (input : List ℚ) (i : ℕ) (hi : i < input.length) :
    (downsampleTo16k input 16000).getD i 0 = jsToInt16 (clamp (input.getD i 0) * 32767) := by
  rw [downsampleTo16k, if_pos rfl]
  rw [List.getD_eq_getElem _ _ (by simpa using hi), List.getElem_map,
    List.getD_eq_getElem _ _ hi]

/-- C3 counterexample: at the target rate the code truncates toward zero
rather than rounding, so for the in-range sample 1/2 the output differs from
round(sample * 32767). -/
theorem encode_16k_not_round_cex :
    (downsampleTo16k [1 / 2] 16000).getD 0 0 ≠ jsRound ((1 / 2 : ℚ) * 32767) := by
  have hl : (downsampleTo16k [1 / 2] 16000).getD 0 0 = 16383 := by
    rw [downsample16k_getD [1 / 2] 0 (by norm_num)]
    have hc : clamp ((1 / 2 : ℚ)) = 1 / 2 := clamp_of_mem _ (by norm_num) (by norm_num)
    rw [List.getD_cons_zero, hc, jsToInt16_eq_ratTrunc, ratTrunc_half_32767]
    · rw [ratTrunc_half_32767]; norm_num
    · rw [ratTrunc_half_32767]; norm_num
  have hr : jsRound ((1 / 2 : ℚ) * 32767) = 16384 := by
    rw [jsRound]
    apply ratFloor_eq <;> norm_num
  rw [hl, hr]
  decide

/-- C3 amended: for input at the target rate of 16 kHz, every in-range sample
s in [-1, 1] is encoded as the truncation toward zero of s * 32767 (not
round(s * 32767)); out-of-range samples are first clamped to [-1, 1] and hence
map to plus/minus 32767. -/
theorem encode_16k_truncates (input : List ℚ) (i : ℕ) (hi : i < input.length) :
    ((-1 ≤ input.getD i 0 ∧ input.getD i 0 ≤ 1) →
      (downsampleTo16k input 16000).getD i 0 = ratTrunc (input.getD i 0 * 32767)) ∧
    (1 < input.getD i 0 → (downsampleTo16k input 16000).getD i 0 = 32767) ∧
    (input.getD i 0 < -1 → (downsampleTo16k input 16000).getD i 0 = -32767) := by
  rw [downsample16k_getD input i hi]
  set s := input.getD i 0 with hs
  refine ⟨fun hin => ?_, fun hgt => ?_, fun hlt => ?_⟩
  · rw [clamp_of_mem s hin.1 hin.2]
    have hb := ratTrunc_bounds 32767 (s * 32767) (by norm_num)
      (by push_cast; nlinarith [hin.1, hin.2]) (by push_cast; nlinarith [hin.1, hin.2])
    exact jsToInt16_eq_ratTrunc _ (by omega) (by omega)
  · have hc : clamp s = 1 := by
      rw [clamp, min_eq_left (le_of_lt hgt)]
      norm_num
    rw [hc]
    have h1 : ((1 : ℚ) * 32767) = ((32767 : ℤ) : ℚ) := by norm_num
    rw [h1, jsToInt16_eq_ratTrunc] <;> rw [ratTrunc_intCast] <;> norm_num
  · have hc : clamp s = -1 := by
      rw [clamp]
      have : min 1 s = s := min_eq_right (by linarith)
      rw [this, max_eq_left (le_of_lt hlt)]
    rw [hc]
    have h1 : ((-1 : ℚ) * 32767) = ((-32767 : ℤ) : ℚ) := by norm_num
    rw [h1, jsToInt16_eq_ratTrunc] <;> rw [ratTrunc_intCast] <;> norm_num

/-- C3 amended witness: on the frame [3/2, 1/2, -2] at 16 kHz, the first
sample is clamped to 32767, the in-range sample 1/2 encodes to
trunc(1/2 * 32767) = 16383, and the last is clamped to -32767. -/
theorem encode_16k_truncates_witness :
    (downsampleTo16k [3 / 2, 1 / 2, -2] 16000).getD 0 0 = 32767 ∧
    (downsampleTo16k [3 / 2, 1 / 2, -2] 16000).getD 1 0 = 16383 ∧
    (downsampleTo16k [3 / 2, 1 / 2, -2] 16000).getD 2 0 = -32767 := by
  refine ⟨?_, ?_, ?_⟩
  · have h := (encode_16k_truncates [3 / 2, 1 / 2, -2] 0 (by norm_num)).2.1
    simp only [List.getD_cons_zero] at h
    exact h (by norm_num)
  · have h := (encode_16k_truncates [3 / 2, 1 / 2, -2] 1 (by norm_num)).1
    simp only [List.getD_cons_succ, List.getD_cons_zero] at h
    rw [h ⟨by norm_num, by norm_num⟩, ratTrunc_half_32767]
  · have h := (encode_16k_truncates [3 / 2, 1 / 2, -2] 2 (by norm_num)).2.2
    simp only [List.getD_cons_succ, List.getD_cons_zero] at h
    exact h (by norm_num)

/-! ### Resampler/Codec: pcmToAudioBuffer (VoiceAssistant.tsx lines 67-85) -/

/-- Signed 16-bit sample assembled from two consecutive bytes, little-endian,
as read through an Int16Array view of the underlying buffer. -/
def int16FromBytes (lo hi : ℕ) : ℤ :=
  if lo + 256 * hi < 32768 then ((lo + 256 * hi : ℕ) : ℤ)
  else ((lo + 256 * hi : ℕ) : ℤ) - 65536

/-- The Int16Array view of a byte buffer (`new Int16Array(data.buffer)`):
consecutive byte pairs, little-endian; a trailing odd byte cannot occur
because the constructor has already rejected odd buffer lengths. -/
def bytesToInt16 : List ℕ → List ℤ
  | lo :: hi :: rest => int16FromBytes lo hi :: bytesToInt16 rest
  | _ => []

inductive DecodeError where
  | rangeError
  | notSupportedError
deriving DecidableEq, Repr

/-- Shallow embedding of pcmToAudioBuffer. Modelling of the platform calls:
`new Int16Array(data.buffer)` throws a RangeError when the buffer's byte
length is not a multiple of 2. `frameCount = dataInt16.length / numChannels`
is exact JS division; AudioContext.createBuffer receives it as a WebIDL
`unsigned long`, which truncates it (here: Nat floor division), and
createBuffer throws a NotSupportedError when the channel count or the
truncated frame count is zero. The copy loop runs for integer i with
i < frameCount (the exact quotient), so when frameCount is fractional the
final iteration writes past the end of the Float32Array channel data, which
JS silently discards: the produced buffer holds exactly the first
floor(frameCount) frames of each channel. The sampleRate argument (24000 at
the call site) only tags the returned buffer and is omitted here. -/
def pcmToAudioBuffer (data : List ℕ) (numChannels : ℕ) :
    Except DecodeError (List (List ℚ)) :=
  if data.length % 2 ≠ 0 then .error .rangeError
  else if numChannels = 0 ∨ (bytesToInt16 data).length / numChannels = 0 then
    .error .notSupportedError
  else
    .ok ((List.range numChannels).map (fun (channel : ℕ) =>
      (List.range ((bytesToInt16 data).length / numChannels)).map (fun (i : ℕ) =>
        (((bytesToInt16 data).getD (i * numChannels + channel) 0 : ℤ) : ℚ) / 32768)))

theorem bytesToInt16_length (data : List ℕ) :
    (bytesToInt16 data).length = data.length / 2 := by
  induction data using bytesToInt16.induct with
  | case1 lo hi rest ih =>
    rw [bytesToInt16, List.length_cons, ih]
    simp only [List.length_cons]
    omega
  | case2 data h =>
    rcases data with _ | ⟨x, _ | ⟨y, t⟩⟩
    · rfl
    · have hb : bytesToInt16 [x] = [] := rfl
      rw [hb]
      simp only [List.length_nil, List.length_singleton]
    · exact (h x y t rfl).elim

theorem bytesToInt16_getD (data : List ℕ) (k : ℕ) (hk : k < data.length / 2) :
    (bytesToInt16 data).getD k 0 =
      int16FromBytes (data.getD (2 * k) 0) (data.getD (2 * k + 1) 0) := by
  induction data using bytesToInt16.induct generalizing k with
  | case1 lo hi rest ih =>
    cases k with
    | zero => rw [bytesToInt16]; rfl
    | succ k' =>
      rw [bytesToInt16, List.getD_cons_succ]
      have hk' : k' < rest.length / 2 := by
        simp only [List.length_cons] at hk
        omega
      rw [ih k' hk']
      have e1 : 2 * (k' + 1) = (2 * k' + 1) + 1 := by omega
      rw [e1]
      simp only [List.getD_cons_succ]
  | case2 data h =>
    rcases data with _ | ⟨x, _ | ⟨y, t⟩⟩
    · simp only [List.length_nil] at hk
      omega
    · simp only [List.length_singleton] at hk
      omega
    · exact (h x y t rfl).elim

/-- Helper: reading a mapped range list at an in-bounds index. -/
theorem getD_map_range {α : Type} (n : ℕ) (f : ℕ → α) (d : α) (i : ℕ) (hi : i < n) :
    ((List.range n).map f).getD i d = f i := by
  have hlen : i < ((List.range n).map f).length := by
    simpa using hi
  rw [List.getD_eq_getElem _ _ hlen, List.getElem_map, List.getElem_range]

/-- C5 counterexample: a 6-byte buffer decoded with channel count 2 has a byte
length that is not a multiple of channels * 2, yet pcmToAudioBuffer succeeds
(the fractional frame count 1.5 is truncated by createBuffer rather than
rejected), contradicting "fails with FormatError exactly when the byte length
is not a multiple of channels * 2". -/
theorem decode_misaligned_succeeds_cex :
    ([1, 0, 2, 0, 3, 0] : List ℕ).length % (2 * 2) ≠ 0 ∧
    (pcmToAudioBuffer [1, 0, 2, 0, 3, 0] 2).isOk = true := by
  constructor
  · decide
  · decide

/-- C5 amended: pcmToAudioBuffer fails exactly when the byte length is odd
(RangeError from the Int16Array view) or when floor(byteLength/2/channels) is
zero, including the zero-channel case (NotSupportedError from createBuffer);
for every even-length input and every channel c < channels and frame
i < floor(byteLength/2/channels), it succeeds, and the output sample for
channel c at frame i is the little-endian signed 16-bit value at byte offset
2*(i*channels+c) divided by 32768. -/
theorem decode_characterization (data : List ℕ) (numChannels : ℕ) :
    ((pcmToAudioBuffer data numChannels).isOk = false ↔
      data.length % 2 = 1 ∨ data.length / 2 / numChannels = 0) ∧
    (∀ channel i, channel < numChannels → i < data.length / 2 / numChannels →
      data.length % 2 = 0 →
      ∃ out, pcmToAudioBuffer data numChannels = .ok out ∧
        (out.getD channel []).getD i 0 =
          ((int16FromBytes (data.getD (2 * (i * numChannels + channel)) 0)
            (data.getD (2 * (i * numChannels + channel) + 1) 0) : ℤ) : ℚ) / 32768) := by
  have hfc : (bytesToInt16 data).length / numChannels = data.length / 2 / numChannels := by
    rw [bytesToInt16_length]
  constructor
  · by_cases h2 : data.length % 2 ≠ 0
    · rw [pcmToAudioBuffer, if_pos h2]
      exact ⟨fun _ => Or.inl (by omega), fun _ => rfl⟩
    · rw [pcmToAudioBuffer, if_neg h2]
      by_cases h3 : numChannels = 0 ∨ (bytesToInt16 data).length / numChannels = 0
      · rw [if_pos h3]
        refine ⟨fun _ => Or.inr ?_, fun _ => rfl⟩
        rw [← hfc]
        rcases h3 with h3 | h3
        · rw [h3, Nat.div_zero]
        · exact h3
      · rw [if_neg h3]
        refine ⟨fun hok => Bool.noConfusion hok, fun hr => ?_⟩
        exfalso
        rcases hr with hr | hr
        · omega
        · exact h3 (Or.inr (by rw [hfc]; exact hr))
  · intro channel i hch hi h2
    have hcond : ¬ (numChannels = 0 ∨ (bytesToInt16 data).length / numChannels = 0) := by
      rw [hfc]
      rintro (h | h)
      · omega
      · omega
    rw [pcmToAudioBuffer, if_neg (by omega : ¬ data.length % 2 ≠ 0), if_neg hcond]
    refine ⟨_, rfl, ?_⟩
    have hkey : i * numChannels + channel < data.length / 2 := by
      have hm1 : (i + 1) * numChannels ≤ (data.length / 2 / numChannels) * numChannels :=
        Nat.mul_le_mul_right _ hi
      have hm2 : (data.length / 2 / numChannels) * numChannels ≤ data.length / 2 :=
        Nat.div_mul_le_self _ _
      have hm3 : i * numChannels + channel < (i + 1) * numChannels := by
        rw [add_mul, one_mul]
        omega
      omega
    rw [getD_map_range numChannels _ [] channel hch]
    rw [getD_map_range ((bytesToInt16 data).length / numChannels) _ 0 i (by rw [hfc]; exact hi)]
    rw [bytesToInt16_getD data _ hkey]

/-- C5 amended witness: the 4-byte buffer [1, 0, 254, 255] decoded with one
channel succeeds; frame 1 holds the little-endian value 0xFFFE = -2, scaled
to -2/32768. -/
theorem decode_characterization_witness :
    ∃ out, pcmToAudioBuffer [1, 0, 254, 255] 1 = .ok out ∧
      (out.getD 0 []).getD 1 0 = ((int16FromBytes 254 255 : ℤ) : ℚ) / 32768 :=
  (decode_characterization [1, 0, 254, 255] 1).2 0 1 (by decide) (by decide) (by decide)

/-! ### Session state and playback scheduler (VoiceAssistant.tsx lines 87-145,
218-241, 294-332) -/

inductive Status where
  | idle
  | connecting
  | listening
  | speaking
deriving DecidableEq, Repr

/-- Externally visible resource releases performed by the component; used to
express "released exactly once". Track and source identifiers are naturals. -/
inductive Action where
  | disconnectProcessor
  | disconnectSource
  | stopTrack (t : ℕ)
  | stopSource (s : ℕ)
  | closeContext
  | closeSession
deriving DecidableEq, Repr

/-- The mutable refs and React state of the VoiceAssistant component.
processorRef, sourceNodeRef and audioContextRef are modelled by presence
flags, mediaStreamRef by the optional list of its tracks, activeSourcesRef by
the list of scheduled source-node identifiers, sessionPromiseRef by a
presence flag. -/
structure SessionState where
  processor : Bool
  sourceNode : Bool
  mediaStream : Option (List ℕ)
  activeSources : List ℕ
  nextStartTime : ℚ
  audioContext : Bool
  sessionPromise : Bool
  isSessionOpen : Bool
  isActive : Bool
  status : Status
  error : Option String
deriving DecidableEq, Repr

/-- The component's state at mount: all refs null/empty, nextStartTime 0. -/
def initialState : SessionState :=
  { processor := false, sourceNode := false, mediaStream := none,
    activeSources := [], nextStartTime := 0, audioContext := false,
    sessionPromise := false, isSessionOpen := false, isActive := false,
    status := Status.idle, error := none }

/-- Shallow embedding of the scheduling core of playAudioChunk (lines
294-332): on each decoded chunk the component sets status to speaking,
computes startTime = max(ctx.currentTime, nextStartTimeRef.current), starts
the source at startTime, advances the cursor by the chunk's duration and
records the source as active. `clock` is ctx.currentTime at the call, `dur`
is audioBuffer.duration, `src` identifies the created source node. Returns
the updated state and the computed start time. -/
def playAudioChunk (clock dur : ℚ) (src : ℕ) (s : SessionState) :
    SessionState × ℚ :=
  let startTime := max clock s.nextStartTime
  ({ s with status := Status.speaking,
            nextStartTime := startTime + dur,
            activeSources := s.activeSources ++ [src] }, startTime)

/-- One playback chunk arrival: the clock reading at arrival, the chunk's
duration, and a fresh identifier for its source node. -/
structure ChunkEv where
  clock : ℚ
  dur : ℚ
  src : ℕ
deriving DecidableEq, Repr

instance : Inhabited ChunkEv := ⟨⟨0, 0, 0⟩⟩

/-- State after enqueueing a sequence of chunks. -/
def playSeq (s : SessionState) : List ChunkEv → SessionState
  | [] => s
  | c :: rest => playSeq (playAudioChunk c.clock c.dur c.src s).1 rest

/-- The start times computed for a sequence of enqueued chunks. -/
def startTimes (s : SessionState) : List ChunkEv → List ℚ
  | [] => []
  | c :: rest =>
    (playAudioChunk c.clock c.dur c.src s).2 ::
      startTimes (playAudioChunk c.clock c.dur c.src s).1 rest

theorem startTimes_head_ge (s : SessionState) (cs : List ChunkEv)
    (h : cs ≠ []) : s.nextStartTime ≤ (startTimes s cs).getD 0 0 := by
  cases cs with
  | nil => exact absurd rfl h
  | cons c rest =>
    rw [startTimes, List.getD_cons_zero]
    exact le_max_right _ _

/-- C1: for every sequence of enqueued chunks with nonnegative durations, the
i-th computed start time equals max(clock reading, cursor), the cursor then
advances by the chunk's duration, consecutive start times are non-decreasing,
and the (i+1)-th start time is at least the end time (start + duration) of
chunk i. -/
theorem playAudioChunk_gapless (s : SessionState) (cs : List ChunkEv)
    (hd : ∀ c ∈ cs, 0 ≤ c.dur) (i : ℕ) (hi : i + 1 < cs.length) :
    (startTimes s cs).getD i 0 =
      max (cs.getD i default).clock (playSeq s (cs.take i)).nextStartTime ∧
    (playSeq s (cs.take (i + 1))).nextStartTime =
      (startTimes s cs).getD i 0 + (cs.getD i default).dur ∧
    (startTimes s cs).getD i 0 + (cs.getD i default).dur ≤
      (startTimes s cs).getD (i + 1) 0 ∧
    (startTimes s cs).getD i 0 ≤ (startTimes s cs).getD (i + 1) 0 := by
  induction cs generalizing s i with
  | nil => simp at hi
  | cons c rest ih =>
    have hdc : 0 ≤ c.dur := hd c (List.mem_cons_self c rest)
    have hdr : ∀ x ∈ rest, 0 ≤ x.dur := fun x hx => hd x (List.mem_cons_of_mem c hx)
    cases i with
    | zero =>
      have hne : rest ≠ [] := by
        simp only [List.length_cons] at hi
        intro hcon
        rw [hcon] at hi
        simp at hi
      refine ⟨?_, ?_, ?_, ?_⟩
      · rw [startTimes, List.getD_cons_zero, List.take_zero]
        rfl
      · rw [startTimes, List.getD_cons_zero, List.getD_cons_zero]
        rfl
      · rw [startTimes, List.getD_cons_zero, List.getD_cons_succ,
          List.getD_cons_zero]
        have hh := startTimes_head_ge (playAudioChunk c.clock c.dur c.src s).1 rest hne
        calc (playAudioChunk c.clock c.dur c.src s).2 + c.dur
            = (playAudioChunk c.clock c.dur c.src s).1.nextStartTime := rfl
          _ ≤ (startTimes (playAudioChunk c.clock c.dur c.src s).1 rest).getD 0 0 := hh
      · rw [startTimes, List.getD_cons_zero, List.getD_cons_succ]
        have hh := startTimes_head_ge (playAudioChunk c.clock c.dur c.src s).1 rest hne
        have : (playAudioChunk c.clock c.dur c.src s).2 ≤
            (playAudioChunk c.clock c.dur c.src s).1.nextStartTime := by
          show (playAudioChunk c.clock c.dur c.src s).2 ≤
            (playAudioChunk c.clock c.dur c.src s).2 + c.dur
          linarith
        exact le_trans this hh
    | succ n =>
      have hi' : n + 1 < rest.length := by
        simp only [List.length_cons] at hi
        omega
      have h3 := ih (playAudioChunk c.clock c.dur c.src s).1 hdr n hi'
      refine ⟨?_, ?_, ?_, ?_⟩
      · rw [startTimes, List.getD_cons_succ, List.getD_cons_succ, List.take_succ_cons,
          playSeq]
        exact h3.1
      · rw [startTimes, List.getD_cons_succ, List.getD_cons_succ, List.take_succ_cons,
          playSeq]
        exact h3.2.1
      · rw [startTimes, List.getD_cons_succ, List.getD_cons_succ, List.getD_cons_succ]
        exact h3.2.2.1
      · rw [startTimes, List.getD_cons_succ, List.getD_cons_succ]
        exact h3.2.2.2

/-- C1 witness: three chunks (durations 1, 2, 1; the third arriving when the
clock has jumped ahead to 5) scheduled from the mount state. -/
theorem playAudioChunk_gapless_witness :
    (startTimes initialState [⟨0, 1, 10⟩, ⟨0, 2, 11⟩, ⟨5, 1, 12⟩]).getD 1 0 =
      max (([⟨0, 1, 10⟩, ⟨0, 2, 11⟩, ⟨5, 1, 12⟩] : List ChunkEv).getD 1 default).clock
        (playSeq initialState (([⟨0, 1, 10⟩, ⟨0, 2, 11⟩, ⟨5, 1, 12⟩] : List ChunkEv).take 1)).nextStartTime ∧
    (playSeq initialState (([⟨0, 1, 10⟩, ⟨0, 2, 11⟩, ⟨5, 1, 12⟩] : List ChunkEv).take 2)).nextStartTime =
      (startTimes initialState [⟨0, 1, 10⟩, ⟨0, 2, 11⟩, ⟨5, 1, 12⟩]).getD 1 0 +
        (([⟨0, 1, 10⟩, ⟨0, 2, 11⟩, ⟨5, 1, 12⟩] : List ChunkEv).getD 1 default).dur ∧
    (startTimes initialState [⟨0, 1, 10⟩, ⟨0, 2, 11⟩, ⟨5, 1, 12⟩]).getD 1 0 +
        (([⟨0, 1, 10⟩, ⟨0, 2, 11⟩, ⟨5, 1, 12⟩] : List ChunkEv).getD 1 default).dur ≤
      (startTimes initialState [⟨0, 1, 10⟩, ⟨0, 2, 11⟩, ⟨5, 1, 12⟩]).getD 2 0 ∧
    (startTimes initialState [⟨0, 1, 10⟩, ⟨0, 2, 11⟩, ⟨5, 1, 12⟩]).getD 1 0 ≤
      (startTimes initialState [⟨0, 1, 10⟩, ⟨0, 2, 11⟩, ⟨5, 1, 12⟩]).getD 2 0 :=
  playAudioChunk_gapless initialState [⟨0, 1, 10⟩, ⟨0, 2, 11⟩, ⟨5, 1, 12⟩]
    (by intro c hc; fin_cases hc <;> norm_num) 1 (by norm_num)

/-! ### Interruption handling (VoiceAssistant.tsx lines 224-231) -/

/-- Shallow embedding of the interrupted branch of the onmessage callback:
stop every active source, clear the active set, set nextStartTimeRef to 0 and
status to listening. `clock` is ctx.currentTime at the moment the signal
arrives; the handler does not read it. Returns the new state and the stop
calls issued. -/
def onInterrupted (clock : ℚ) (s : SessionState) : SessionState × List Action :=
  ({ s with activeSources := [], nextStartTime := 0, status := Status.listening },
   s.activeSources.map Action.stopSource)

/-- The scheduler is idle when no source is currently scheduled (the
condition activeSourcesRef.current.size === 0 used by the onended logic). -/
def playbackIdle (s : SessionState) : Bool := s.activeSources.isEmpty

/-- A state with two chunks scheduled and the cursor at 7, as reached during
active playback. -/
def interruptCexState : SessionState :=
  { initialState with
    audioContext := true, sessionPromise := true,
    isSessionOpen := true, isActive := true, status := Status.speaking,
    activeSources := [1, 2], nextStartTime := 7 }

/-- C2 counterexample: a remote interrupted signal arriving at clock time 5
resets the cursor to 0, not to the clock's current time 5. -/
theorem flush_cursor_not_clock_cex :
    (onInterrupted 5 interruptCexState).1.nextStartTime ≠ 5 := by
  rw [onInterrupted]
  norm_num

/-- C2 amended: the interrupted handler stops every currently scheduled
chunk, empties the active set (so the scheduler is idle immediately), and
resets nextStartTime to 0 rather than to the clock's current time; because
clock readings are nonnegative, the next enqueued chunk still starts exactly
at the then-current clock time. -/
theorem flush_on_interrupt (clock : ℚ) (s : SessionState) :
    (onInterrupted clock s).2 = s.activeSources.map Action.stopSource ∧
    playbackIdle (onInterrupted clock s).1 = true ∧
    (onInterrupted clock s).1.nextStartTime = 0 ∧
    (∀ c d src, 0 ≤ c →
      (playAudioChunk c d src (onInterrupted clock s).1).2 = c) := by
  refine ⟨rfl, rfl, rfl, fun c d src hc => ?_⟩
  rw [playAudioChunk]
  exact max_eq_left (by rw [onInterrupted]; exact hc)

/-- C2 amended witness: flushing the two-chunk state at clock time 5 stops
sources 1 and 2, leaves the scheduler idle, zeroes the cursor, and a chunk
enqueued afterwards at clock time 3 starts at 3. -/
theorem flush_on_interrupt_witness :
    playbackIdle (onInterrupted 5 interruptCexState).1 = true ∧
    (onInterrupted 5 interruptCexState).2 = [Action.stopSource 1, Action.stopSource 2] ∧
    (playAudioChunk 3 1 9 (onInterrupted 5 interruptCexState).1).2 = 3 :=
  ⟨(flush_on_interrupt 5 interruptCexState).2.1,
   (flush_on_interrupt 5 interruptCexState).1,
   (flush_on_interrupt 5 interruptCexState).2.2.2 3 1 9 (by norm_num)⟩

/-! ### Teardown: cleanupAudio, stopSession, onclose/onerror
(VoiceAssistant.tsx lines 102-145 and 233-241) -/

/-- Shallow embedding of cleanupAudio: disconnect and null the processor and
source nodes, stop every media-stream track and null the stream, stop every
active playback source and clear the set, zero the cursor, and close and null
the audio context. The returned list logs the release calls in program
order. -/
def cleanupAudio (s : SessionState) : SessionState × List Action :=
  ({ s with processor := false, sourceNode := false, mediaStream := none,
            activeSources := [], nextStartTime := 0, audioContext := false },
   (if s.processor then [Action.disconnectProcessor] else []) ++
   (if s.sourceNode then [Action.disconnectSource] else []) ++
   ((s.mediaStream.getD []).map Action.stopTrack) ++
   (s.activeSources.map Action.stopSource) ++
   (if s.audioContext then [Action.closeContext] else []))

/-- Shallow embedding of stopSession: clear the session-open flag, run
cleanupAudio, close and null the session promise if present, clear isActive
and set status to idle. -/
def stopSession (s : SessionState) : SessionState × List Action :=
  let r := cleanupAudio { s with isSessionOpen := false }
  let r2 := if r.1.sessionPromise
    then ({ r.1 with sessionPromise := false }, r.2 ++ [Action.closeSession])
    else (r.1, r.2)
  ({ r2.1 with isActive := false, status := Status.idle }, r2.2)

theorem count_map_eq_zero {α β : Type} [DecidableEq β] (f : α → β) (l : List α)
    (b : β) (h : ∀ a, f a ≠ b) : (l.map f).count b = 0 := by
  rw [List.count_eq_zero]
  intro hmem
  rcases List.mem_map.mp hmem with ⟨a, _, ha⟩
  exact h a ha

/-- The state left behind by stopSession: every ref null, every flag cleared,
status idle; only the error message survives. -/
theorem stopSession_state (s : SessionState) :
    (stopSession s).1 =
      { processor := false, sourceNode := false, mediaStream := none,
        activeSources := [], nextStartTime := 0, audioContext := false,
        sessionPromise := false, isSessionOpen := false, isActive := false,
        status := Status.idle, error := s.error } := by
  rw [stopSession, cleanupAudio]
  by_cases h : s.sessionPromise = true <;> simp [h]

/-- stopSession from a state owning no resource performs no release. -/
theorem stopSession_of_cleared (s : SessionState)
    (hp : s.processor = false) (hs : s.sourceNode = false)
    (hm : s.mediaStream = none) (ha : s.activeSources = [])
    (hc : s.audioContext = false) (hsp : s.sessionPromise = false) :
    stopSession s =
      ({ s with isSessionOpen := false, isActive := false,
                status := Status.idle, nextStartTime := 0,
                processor := false, sourceNode := false, mediaStream := none,
                activeSources := [], audioContext := false,
                sessionPromise := false }, []) := by
  rw [stopSession, cleanupAudio]
  simp [hp, hs, hm, ha, hc, hsp]

/-- C7: stopSession is idempotent: a second call in a row reproduces the same
state and performs no release action at all, while the first call (from a
state owning all resources) releases the processor node, the source node, the
audio context, the session and each media track exactly once. -/
theorem stop_idempotent (s : SessionState)
    (hp : s.processor = true) (hs : s.sourceNode = true)
    (tracks : List ℕ) (hm : s.mediaStream = some tracks) (hnd : tracks.Nodup)
    (hc : s.audioContext = true) (hsp : s.sessionPromise = true) :
    (stopSession (stopSession s).1).1 = (stopSession s).1 ∧
    (stopSession (stopSession s).1).2 = [] ∧
    ((stopSession s).2.count Action.disconnectProcessor = 1 ∧
     (stopSession s).2.count Action.disconnectSource = 1 ∧
     (stopSession s).2.count Action.closeContext = 1 ∧
     (stopSession s).2.count Action.closeSession = 1) ∧
    (∀ t ∈ tracks, (stopSession s).2.count (Action.stopTrack t) = 1) := by
  have hacts : (stopSession s).2 =
      [Action.disconnectProcessor] ++ [Action.disconnectSource] ++
      tracks.map Action.stopTrack ++ s.activeSources.map Action.stopSource ++
      [Action.closeContext] ++ [Action.closeSession] := by
    rw [stopSession, cleanupAudio]
    simp only [hp, hs, hm, hc, hsp, if_true, if_pos, Option.getD_some]
  refine ⟨?_, ?_, ?_, ?_⟩
  · rw [stopSession_state s, stopSession_of_cleared _ rfl rfl rfl rfl rfl rfl]
  · rw [stopSession_state s, stopSession_of_cleared _ rfl rfl rfl rfl rfl rfl]
  · have hzt : ∀ b : Action, (∀ a : ℕ, Action.stopTrack a ≠ b) →
        (tracks.map Action.stopTrack).count b = 0 :=
      fun b hb => count_map_eq_zero _ _ _ hb
    have hzs : ∀ b : Action, (∀ a : ℕ, Action.stopSource a ≠ b) →
        (s.activeSources.map Action.stopSource).count b = 0 :=
      fun b hb => count_map_eq_zero _ _ _ hb
    rw [hacts]
    simp only [List.count_append]
    refine ⟨?_, ?_, ?_, ?_⟩ <;>
      rw [hzt _ (fun a => by simp), hzs _ (fun a => by simp)] <;>
      simp [List.count_cons, List.count_nil]
  · intro t ht
    rw [hacts]
    simp only [List.count_append]
    have h1 : (tracks.map Action.stopTrack).count (Action.stopTrack t) = 1 := by
      rw [List.count_map_of_injective tracks Action.stopTrack
        (fun a b hab => by cases hab; rfl) t]
      exact List.count_eq_one_of_mem hnd ht
    have h2 : (s.activeSources.map Action.stopSource).count (Action.stopTrack t) = 0 :=
      count_map_eq_zero _ _ _ (by intro a; simp)
    simp [List.count_cons, List.count_nil, h1, h2]

/-- A concrete state owning every resource, as reached while listening. -/
def stopWitnessState : SessionState :=
  { processor := true, sourceNode := true, mediaStream := some [0, 1],
    activeSources := [5, 6], nextStartTime := 3, audioContext := true,
    sessionPromise := true, isSessionOpen := true, isActive := true,
    status := Status.listening, error := none }

/-- C7 witness: stopping twice from the fully-resourced state releases
nothing on the second call, and the first call closes the session and stops
track 0 exactly once. -/
theorem stop_idempotent_witness :
    (stopSession (stopSession stopWitnessState).1).2 = [] ∧
    (stopSession stopWitnessState).2.count Action.closeSession = 1 ∧
    (stopSession stopWitnessState).2.count (Action.stopTrack 0) = 1 := by
  obtain ⟨h1, h2, h3, h4⟩ :=
    stop_idempotent stopWitnessState rfl rfl [0, 1] rfl (by decide) rfl rfl
  exact ⟨h2, h3.2.2.2, h4 0 (by decide)⟩

/-! ### Remote close and error callbacks (VoiceAssistant.tsx lines 233-241) -/

/-- Value of the `isActive` binding captured by the onclose callback's
closure. startSession runs only from toggleSession's else-branch, i.e. in a
render whose `isActive` constant is false; the callbacks object passed to
ai.live.connect closes over that render's binding, which later
setIsActive(true) calls (which produce a fresh render with fresh bindings) do
not mutate. The guard `if (isActive) stopSession()` in onclose therefore
always reads false. -/
def oncloseCapturedIsActive : Bool := false

/-- Shallow embedding of the onclose callback: run stopSession only when the
captured `isActive` value is true. -/
def onClose (captured : Bool) (s : SessionState) : SessionState × List Action :=
  if captured then stopSession s else (s, [])

/-- Shallow embedding of the onerror callback: record the "Connection error"
message, then unconditionally stopSession. -/
def onError (s : SessionState) : SessionState × List Action :=
  stopSession { s with error := some "Connection error" }

/-- A state in which the session is fully active (current React state
isActive = true, microphone and context live, audio scheduled). -/
def activeSessionState : SessionState :=
  { processor := true, sourceNode := true, mediaStream := some [0],
    activeSources := [3], nextStartTime := 2, audioContext := true,
    sessionPromise := true, isSessionOpen := true, isActive := true,
    status := Status.speaking, error := none }

/-- C6: evaluation at the failing input. A remote onerror during an active
session does tear everything down, transition to idle and surface
"Connection error"; but a remote onclose during the same active session runs
its guard on the stale captured isActive (false), performs no teardown and no
release action, and leaves the microphone, the context and the status
untouched — contradicting the claimed teardown-on-close. -/
theorem onclose_stale_guard :
    onClose oncloseCapturedIsActive activeSessionState = (activeSessionState, []) ∧
    activeSessionState.isActive = true ∧
    activeSessionState.status ≠ Status.idle ∧
    activeSessionState.processor = true ∧
    activeSessionState.mediaStream ≠ none ∧
    ((onError activeSessionState).1.status = Status.idle ∧
     (onError activeSessionState).1.error = some "Connection error" ∧
     (onError activeSessionState).1.processor = false ∧
     (onError activeSessionState).1.mediaStream = none ∧
     (onError activeSessionState).1.audioContext = false ∧
     (onError activeSessionState).1.sessionPromise = false ∧
     (onError activeSessionState).2.count Action.closeSession = 1) := by
  refine ⟨rfl, rfl, by decide, rfl, by decide, ?_⟩
  rw [onError, stopSession, cleanupAudio]
  refine ⟨rfl, rfl, rfl, rfl, rfl, rfl, by decide⟩

/-! ### Note storage (storage service, src/unnamed/part_005) -/

inductive NoteType where
  | text
  | image
  | voice
  | url
  | pdf
deriving DecidableEq, Repr

/-- The Note record (src/unnamed/part_004). Optional fields model the
TypeScript optionals; `pendingAnalysis` distinguishes absent from explicit
false because the source sets it explicitly when clearing it. -/
structure Note where
  id : String
  content : String
  type : NoteType
  timestamp : ℕ
  imageUrl : Option String := none
  fileData : Option String := none
  mimeType : Option String := none
  pendingAnalysis : Option Bool := none
deriving DecidableEq, Repr

def SEED_NOTE_ID : String := "seed-zeith-report-2026"

def ZEITH_REPORT_TEXT : String := "[IMPORTED PDF REPORT]
НАЗВАНИЕ: Моторные масла 2026. Экспертный аудит и Стратегия Zeith.

1. EXECUTIVE SUMMARY И ВЕРДИКТ
Главная рекомендация: Входить на рынок РФ с брендом Zeith в 2026 г. УСЛОВНО ЦЕЛЕСООБРАЗНО только при выполнении критических условий:
- Агрессивное снижение цены до 2200-2400 руб/4л (против текущих 2600-2900 руб).
- Приоритет каналов сбыта: Авторазборки (Autodoc, Exist) и СТО — это 80% продаж.
- Обязательная регистрация в системе “Честный знак” до первой поставки (январь 2026).

2. СОСТОЯНИЕ РЫНКА (ФАКТЫ 2024-2025)
- Объём рынка 2024: 470,22 млн л. Прогноз 2026: 476,5 млн л.
- Целевой сегмент (Синтетика): 50% от всех масел. Рост +33% за 4 года.
- Лидеры спроса по вязкости: 5W-30 (35%), 5W-40 (30%).
- Импортозамещение: Российские бренды (Лукойл, Газпром, Роснефть) занимают 60-65% рынка.
- Импорт: Падение импорта на 22-23% в 2024 году создаёт \"окно возможностей\", но логистика из ОАЭ несёт риски.

3. КОНКУРЕНТНЫЙ ЛАНДШАФТ
- LUKOIL (18% рынка): Цена 2400-3600 руб. Узнаваемость 80%+.
- ZIC (5.5% рынка): Цена 2600-3500 руб. Узнаваемость 70%+.
- Kixx (~4% рынка): Цена 2500-3000 руб. Узнаваемость 65%+.
- ZEITH (ОАЭ): Узнаваемость <0.5% (в 10-15 раз ниже конкурентов). Текущая цена (2600-2900) находится в \"мёртвой зоне\" — дорого для ноунейма.

4. СТРАТЕГИЯ ДИСТРИБУЦИИ (80/20)
Рекомендуемое распределение:
- ПРИОРИТЕТ 1: Авторазборки (45%). Аудитория ищет цену/качество. Маржа дилера 26%.
- ПРИОРИТЕТ 2: СТО (35%). Прямые продажи мастерам. Высокая маржа мастера (20-30%), работает \"сарафанное радио\".
- ПРИОРИТЕТ 3: Маркетплейсы (15%). Только для видимости и отзывов. Прибыли нет из-за комиссий (25-32%) и логистики.

5. ЦЕНОВАЯ СТРАТЕГИЯ
Чтобы выжить, Zeith должен позиционироваться как \"недорогая альтернатива Kixx\".
- Текущая цена: 2600-2900 руб/4л (Не работает).
- Целевая цена: 2200-2400 руб/4л.
- При цене 2400 руб в авторазборке, импортёр получает маржу 43% (810 руб), а дилер 26% (500 руб). Это жизнеспособная модель.

6. РЕГУЛЯТОРНЫЕ ТРЕБОВАНИЯ (\"ЧЕСТНЫЙ ЗНАК\")
- С 1 сентября 2025 обязательная маркировка.
- Все партии из ОАЭ должны быть зарегистрированы в ЦРПТ до таможни.
- Штрафы до 300 тыс. руб с конфискацией.

7. МАРКЕТИНГОВЫЙ ПЛАН (БЕЗ ТВ)
- YouTube (50% бюджета): Технические обзоры, сравнения с ZIC/Kixx, автомеханики-инфлюенсеры.
- Форумы (30%): Drive2, oil-club.ru. Ответы на вопросы, лабораторные анализы.
- B2B программы для СТО (20%): Бонусы за объём, обучение мастеров.

8. РИСК-СЦЕНАРИИ
- Оптимистичный (Вероятность 25%): Успешный пилот, оборот 15-22 млн руб.
- Реалистичный (50%): Цена снижена до 2400, оборот 7-12 млн руб, чистая прибыль 1-3 млн.
- Пессимистичный (25%): Цена осталась 2600, убытки, уход с рынка.

Ключевая формула успеха: (Цена ниже Kixx на 15-20%) x (Фокус на СТО/Авторазборки) x (Контент-маркетинг)."

/-- The built-in seed note. `now` stands for the nondeterministic Date.now()
evaluated at module initialization; no claim depends on its value. -/
def SEED_NOTE (now : ℕ) : Note :=
  { id := SEED_NOTE_ID, content := ZEITH_REPORT_TEXT, type := NoteType.pdf,
    timestamp := now, mimeType := some "application/pdf",
    pendingAnalysis := some false }

/-- Persistent storage: the legacy localStorage slot (a JSON-encoded note
list, modelled parsed) and the IndexedDB slot under the same key. The
catch-all StorageError path of the source (log and return []) is not
triggered in this infallible model. -/
structure Storage where
  localData : Option (List Note)
  idb : Option (List Note)
deriving DecidableEq, Repr

/-- The migration step at the top of getNotes: a populated localStorage slot
is copied to IndexedDB and removed. -/
def migrateLocal (st : Storage) : Storage :=
  match st.localData with
  | some l => { localData := none, idb := some l }
  | none => st

/-- Whether the stored list already holds the seed note (by id), the
`data.some(n => n.id === SEED_NOTE_ID)` check. -/
def seedPresent (l : List Note) : Bool := l.any (fun m => m.id == SEED_NOTE_ID)

/-- Shallow embedding of getNotes: migrate the legacy slot, read the stored
list (empty when the slot is missing), and if the seed note's id is absent,
prepend the seed note and persist the extended list. Returns the list
together with the storage as modified. -/
def getNotes (now : ℕ) (st : Storage) : List Note × Storage :=
  if seedPresent ((migrateLocal st).idb.getD []) then
    ((migrateLocal st).idb.getD [], migrateLocal st)
  else
    (SEED_NOTE now :: (migrateLocal st).idb.getD [],
     { migrateLocal st with
       idb := some (SEED_NOTE now :: (migrateLocal st).idb.getD []) })

/-- Shallow embedding of updateNote: re-read the notes (getNotes), rewrite
every note whose id matches (the source spreads a Partial over it; `upd` is
that rewrite), persist and return the updated list. -/
def updateNote (now : ℕ) (id : String) (upd : Note → Note) (st : Storage) :
    List Note × Storage :=
  ((getNotes now st).1.map (fun n => if n.id == id then upd n else n),
   { (getNotes now st).2 with
     idb := some ((getNotes now st).1.map (fun n => if n.id == id then upd n else n)) })

/-- The note a later read of the store returns for a given id (first match,
as find? / the de-facto unique note with that id). -/
def findNote (st : Storage) (id : String) : Option Note :=
  (st.idb.getD []).find? (fun m => m.id == id)

/-! ### Sync queue: processPendingNotes (src/App.tsx lines 46-108) -/

/-- Request sent to the one-shot enrichment call: inline payload, MIME type
and prompt. -/
structure EnrichRequest where
  mimeType : String
  data : String
  prompt : String
deriving DecidableEq, Repr

/-- JS truthiness of an optional string field (undefined and "" are falsy). -/
def jsTruthy : Option String → Bool
  | none => false
  | some s => !s.isEmpty

def splitCommaAux : List Char → List Char → List (List Char)
  | [], acc => [acc.reverse]
  | c :: rest, acc =>
    if c = ',' then acc.reverse :: splitCommaAux rest []
    else splitCommaAux rest (c :: acc)

/-- JS `s.split(',')[1]` — the segment after the first comma; the out-of-range
undefined (no comma present) is modelled as "". -/
def splitComma1 (s : String) : String :=
  String.mk ((splitCommaAux s.toList []).getD 1 [])

/-- The request-building branch of the per-note loop of processPendingNotes:
the enrichment request plus the updateContentPrefix for an image note with a
truthy imageUrl or a pdf note with truthy fileData; none models the
`continue` branch for every other pending note. -/
def noteRequest (n : Note) : Option (EnrichRequest × String) :=
  if n.type = NoteType.image ∧ jsTruthy n.imageUrl = true then
    some ({ mimeType := "image/jpeg",
            data := splitComma1 (n.imageUrl.getD ""),
            prompt := "Analyze this previously saved image for the knowledge base. Provide a detailed description." },
          n.content)
  else if n.type = NoteType.pdf ∧ jsTruthy n.fileData = true then
    some ({ mimeType := "application/pdf",
            data := splitComma1 (n.fileData.getD ""),
            prompt := "Analyze this previously saved PDF document. Extract key information and summaries for the knowledge base." },
          "[PDF Source]")
  else
    none

/-- The new content written on a successful enrichment:
`updateContentPrefix + "\n\n[Synced AI Analysis]: " + (response.text ||
"Analysis completed.")`. -/
def enrichedContent (pfx t : String) : String :=
  pfx ++ "\n\n[Synced AI Analysis]: " ++ (if t.isEmpty then "Analysis completed." else t)

/-- The Partial applied by updateNote on success: rewrite the content and
clear pendingAnalysis. -/
def applyEnrichment (pfx t : String) (m : Note) : Note :=
  { m with content := enrichedContent pfx t, pendingAnalysis := some false }

/-- Prepend a note id to the submission log of a loop result. -/
def logCons (id : String) (r : Storage × List String) : Storage × List String :=
  (r.1, id :: r.2)

/-- The per-note loop of processPendingNotes. `gen` models
ai.models.generateContent: the response text on success (possibly empty when
response.text is undefined), or a thrown error. A thrown error is caught,
logged and the loop continues with the next note; notes with no request
(`continue`) are skipped entirely. The returned list logs, in order, the ids
of the notes for which the remote call was issued. -/
def syncLoop (now : ℕ) (gen : EnrichRequest → Except Unit String) :
    List Note → Storage → Storage × List String
  | [], st => (st, [])
  | m :: rest, st =>
    match noteRequest m with
    | none => syncLoop now gen rest st
    | some (req, pfx) =>
      match gen req with
      | Except.error _ => logCons m.id (syncLoop now gen rest st)
      | Except.ok t =>
        logCons m.id (syncLoop now gen rest
          (updateNote now m.id (applyEnrichment pfx t) st).2)

/-- Shallow embedding of processPendingNotes: read all notes, keep those
flagged pendingAnalysis; return immediately when none is pending or when no
API key is configured (hasKey); otherwise run the per-note loop
sequentially. -/
def processPendingNotes (now : ℕ) (hasKey : Bool)
    (gen : EnrichRequest → Except Unit String) (st : Storage) :
    Storage × List String :=
  if ((getNotes now st).1.filter (fun n => n.pendingAnalysis == some true)).isEmpty then
    ((getNotes now st).2, [])
  else if !hasKey then ((getNotes now st).2, [])
  else
    syncLoop now gen
      ((getNotes now st).1.filter (fun n => n.pendingAnalysis == some true))
      (getNotes now st).2

theorem migrateLocal_localData (st : Storage) : (migrateLocal st).localData = none := by
  cases hl : st.localData <;> simp [migrateLocal, hl]

theorem seedPresent_seed_cons (now : ℕ) (l : List Note) :
    seedPresent (SEED_NOTE now :: l) = true := by
  simp [seedPresent, SEED_NOTE]

/-- C10: every call of getNotes returns a list that contains a note carrying
the seed id (hence the list is nonempty); when the stored list (after the
localStorage migration) lacks that id, the returned list is exactly the
built-in seed note — a pdf note with pendingAnalysis false — prepended to the
stored list, and that extended list is persisted; otherwise the stored list
is returned unchanged. -/
theorem getNotes_seed_invariant (now : ℕ) (st : Storage) :
    seedPresent (getNotes now st).1 = true ∧
    (getNotes now st).1 ≠ [] ∧
    (SEED_NOTE now).type = NoteType.pdf ∧
    (SEED_NOTE now).pendingAnalysis = some false ∧
    (if seedPresent ((migrateLocal st).idb.getD []) then
      getNotes now st = ((migrateLocal st).idb.getD [], migrateLocal st)
    else
      (getNotes now st).1 = SEED_NOTE now :: (migrateLocal st).idb.getD [] ∧
      (getNotes now st).2.idb = some ((getNotes now st).1)) := by
  by_cases h : seedPresent ((migrateLocal st).idb.getD []) = true
  · rw [getNotes, if_pos h]
    refine ⟨h, ?_, rfl, rfl, ?_⟩
    · intro hcon
      have hcon' : (migrateLocal st).idb.getD [] = [] := hcon
      rw [hcon'] at h
      simp [seedPresent] at h
    · rw [if_pos h]
  · rw [getNotes, if_neg h]
    refine ⟨seedPresent_seed_cons now _, by simp, rfl, rfl, ?_⟩
    have h' : seedPresent ((migrateLocal st).idb.getD []) = false := by
      rwa [Bool.not_eq_true] at h
    rw [h', if_neg (by decide : ¬ (false = true))]
    exact ⟨rfl, rfl⟩

theorem getNotes_parts (now : ℕ) (st : Storage) :
    (getNotes now st).2.localData = none ∧
    (getNotes now st).2.idb = some (getNotes now st).1 ∧
    seedPresent (getNotes now st).1 = true := by
  by_cases h : seedPresent ((migrateLocal st).idb.getD []) = true
  · rw [getNotes, if_pos h]
    refine ⟨migrateLocal_localData st, ?_, h⟩
    cases hidb : (migrateLocal st).idb with
    | none =>
      rw [hidb] at h
      simp [seedPresent] at h
    | some l => rfl
  · rw [getNotes, if_neg h]
    exact ⟨migrateLocal_localData st, rfl, seedPresent_seed_cons now _⟩

/-- With ids pairwise distinct, find?-by-id returns exactly the member. -/
theorem find_eq_of_nodup (l : List Note) (n : Note)
    (hnd : (l.map Note.id).Nodup) (hmem : n ∈ l) :
    l.find? (fun m => m.id == n.id) = some n := by
  induction l with
  | nil => cases hmem
  | cons h t ih =>
    rw [List.find?_cons]
    by_cases hh : (h.id == n.id) = true
    · simp only [hh]
      rcases List.mem_cons.mp hmem with rfl | hmemt
      · rfl
      · exfalso
        have hideq : h.id = n.id := eq_of_beq hh
        have hmap : n.id ∈ t.map Note.id := List.mem_map.mpr ⟨n, hmemt, rfl⟩
        rw [← hideq] at hmap
        rw [List.map_cons] at hnd
        exact (List.nodup_cons.mp hnd).1 hmap
    · have hf : (h.id == n.id) = false := by rwa [Bool.not_eq_true] at hh
      simp only [hf]
      have hmemt : n ∈ t := by
        rcases List.mem_cons.mp hmem with rfl | h2
        · exact absurd (by simp) hh
        · exact h2
      have hndt : (t.map Note.id).Nodup := by
        rw [List.map_cons] at hnd
        exact (List.nodup_cons.mp hnd).2
      exact ih hndt hmemt

/-- Invariant threaded through the reconciliation loop, for a fixed note n:
the legacy slot is empty, the store holds a list containing the seed id, and
a lookup of n's id yields exactly n. -/
def storeInv (n : Note) (st : Storage) : Prop :=
  st.localData = none ∧
  ∃ l, st.idb = some l ∧ seedPresent l = true ∧
    l.find? (fun m => m.id == n.id) = some n

theorem getNotes_of_inv (now : ℕ) (st : Storage) (l : List Note)
    (hloc : st.localData = none) (hidb : st.idb = some l)
    (hseed : seedPresent l = true) :
    getNotes now st = (l, st) := by
  have hmig : migrateLocal st = st := by simp only [migrateLocal, hloc]
  rw [getNotes, hmig, hidb]
  simp only [Option.getD_some]
  rw [if_pos hseed]

theorem any_id_map_update (l : List Note) (mid p : String) (upd : Note → Note)
    (hid : ∀ m, (upd m).id = m.id) :
    (l.map (fun x => if x.id == mid then upd x else x)).any (fun m => m.id == p)
      = l.any (fun m => m.id == p) := by
  rw [List.any_map]
  congr 1
  funext x
  by_cases h : (x.id == mid) = true <;> simp [Function.comp, h, hid x]

theorem find_id_map_update (l : List Note) (n : Note) (mid : String)
    (upd : Note → Note) (hid : ∀ m, (upd m).id = m.id)
    (hne : (n.id == mid) = false)
    (hfind : l.find? (fun m => m.id == n.id) = some n) :
    (l.map (fun x => if x.id == mid then upd x else x)).find?
      (fun m => m.id == n.id) = some n := by
  rw [List.find?_map]
  have hpred : ((fun m => m.id == n.id) ∘ (fun x => if x.id == mid then upd x else x))
      = fun x => x.id == n.id := by
    funext x
    by_cases h : (x.id == mid) = true <;> simp [Function.comp, h, hid x]
  rw [hpred, hfind, Option.map_some', if_neg (by rw [hne]; exact Bool.false_ne_true)]

theorem storeInv_updateNote (now : ℕ) (n : Note) (st : Storage) (mid : String)
    (upd : Note → Note) (hid : ∀ m, (upd m).id = m.id)
    (hinv : storeInv n st) (hne : (n.id == mid) = false) :
    storeInv n (updateNote now mid upd st).2 := by
  obtain ⟨hloc, l, hidb, hseed, hfind⟩ := hinv
  have hget : getNotes now st = (l, st) := getNotes_of_inv now st l hloc hidb hseed
  rw [updateNote, hget]
  refine ⟨hloc, l.map (fun x => if x.id == mid then upd x else x), rfl, ?_, ?_⟩
  · rw [seedPresent, any_id_map_update l mid SEED_NOTE_ID upd hid]
    exact hseed
  · exact find_id_map_update l n mid upd hid hne hfind

theorem syncLoop_inv (now : ℕ) (gen : EnrichRequest → Except Unit String)
    (n : Note) (pending : List Note) :
    ∀ (st : Storage), storeInv n st →
      (∀ m ∈ pending, noteRequest m = none ∨ (m.id == n.id) = false) →
      storeInv n (syncLoop now gen pending st).1 ∧
      ∀ x ∈ (syncLoop now gen pending st).2, ¬ (x = n.id) := by
  induction pending with
  | nil =>
    intro st hinv _
    refine ⟨hinv, ?_⟩
    intro x hx
    simp [syncLoop] at hx
  | cons m rest ih =>
    intro st hinv hall
    have hrest := fun x hx => hall x (List.mem_cons_of_mem m hx)
    cases hreqm : noteRequest m with
    | none =>
      simp only [syncLoop, hreqm]
      exact ih st hinv hrest
    | some rp =>
      obtain ⟨req, pfx⟩ := rp
      have hmne : (m.id == n.id) = false := by
        rcases hall m (List.mem_cons_self m rest) with h | h
        · rw [hreqm] at h; cases h
        · exact h
      have hmne' : (n.id == m.id) = false :=
        beq_eq_false_iff_ne.mpr (Ne.symm (beq_eq_false_iff_ne.mp hmne))
      cases hg : gen req with
      | error e =>
        simp only [syncLoop, hreqm, hg, logCons]
        obtain ⟨ih1, ih2⟩ := ih st hinv hrest
        refine ⟨ih1, ?_⟩
        intro x hx
        rcases List.mem_cons.mp hx with rfl | hx2
        · exact beq_eq_false_iff_ne.mp hmne
        · exact ih2 x hx2
      | ok t =>
        simp only [syncLoop, hreqm, hg, logCons]
        have hinv2 := storeInv_updateNote now n st m.id (applyEnrichment pfx t)
          (fun mm => rfl) hinv hmne'
        obtain ⟨ih1, ih2⟩ := ih _ hinv2 hrest
        refine ⟨ih1, ?_⟩
        intro x hx
        rcases List.mem_cons.mp hx with rfl | hx2
        · exact beq_eq_false_iff_ne.mp hmne
        · exact ih2 x hx2

/-- C9: a pending note that is neither an image note with a truthy imageUrl
payload nor a pdf note with a truthy fileData payload is silently skipped by
processPendingNotes: it is never submitted to the remote call, and the store
afterwards still returns it unchanged (hence still flagged pending) under its
id. Ids are assumed pairwise distinct in the stored list, which every
reachable store satisfies. -/
theorem reconcile_skips_unhandled (now : ℕ) (hasKey : Bool)
    (gen : EnrichRequest → Except Unit String) (st : Storage) (n : Note)
    (hmem : n ∈ (getNotes now st).1)
    (hpend : n.pendingAnalysis = some true)
    (hskip : noteRequest n = none)
    (hnd : ((getNotes now st).1.map Note.id).Nodup) :
    findNote (processPendingNotes now hasKey gen st).1 n.id = some n ∧
    n.id ∉ (processPendingNotes now hasKey gen st).2 := by
  have hparts := getNotes_parts now st
  have hfind : (getNotes now st).1.find? (fun m => m.id == n.id) = some n :=
    find_eq_of_nodup _ n hnd hmem
  have hinv : storeInv n (getNotes now st).2 :=
    ⟨hparts.1, (getNotes now st).1, hparts.2.1, hparts.2.2, hfind⟩
  have hfn : ∀ st', storeInv n st' → findNote st' n.id = some n := by
    intro st' hinv'
    obtain ⟨_, l, hidb, _, hf⟩ := hinv'
    rw [findNote, hidb, Option.getD_some, hf]
  rw [processPendingNotes]
  by_cases hempty :
      (((getNotes now st).1.filter (fun m => m.pendingAnalysis == some true)).isEmpty) = true
  · rw [if_pos hempty]
    exact ⟨hfn _ hinv, by simp⟩
  · rw [if_neg hempty]
    by_cases hk : (!hasKey) = true
    · rw [if_pos hk]
      exact ⟨hfn _ hinv, by simp⟩
    · rw [if_neg hk]
      have hall : ∀ m ∈ (getNotes now st).1.filter
          (fun x => x.pendingAnalysis == some true),
          noteRequest m = none ∨ (m.id == n.id) = false := by
        intro m hmf
        have hm : m ∈ (getNotes now st).1 := List.mem_of_mem_filter hmf
        by_cases hid : (m.id == n.id) = true
        · left
          have hmn : m = n := List.inj_on_of_nodup_map hnd hm hmem (eq_of_beq hid)
          rw [hmn]
          exact hskip
        · right
          rwa [Bool.not_eq_true] at hid
      obtain ⟨hi1, hi2⟩ := syncLoop_inv now gen n _ (getNotes now st).2 hinv hall
      exact ⟨hfn _ hi1, fun hx => hi2 n.id hx rfl⟩

/-- A pending text note, which the per-note loop has no request branch for. -/
def c9note : Note :=
  { id := "t1", content := "hello", type := NoteType.text, timestamp := 2,
    pendingAnalysis := some true }

def c9store : Storage := { localData := none, idb := some [SEED_NOTE 0, c9note] }

/-- C9 witness: reconciling a store holding the seed note and one pending
text note leaves the text note stored unchanged and never submits it. -/
theorem reconcile_skips_unhandled_witness :
    findNote (processPendingNotes 0 true (fun _ => Except.ok "R") c9store).1 "t1" =
      some c9note ∧
    "t1" ∉ (processPendingNotes 0 true (fun _ => Except.ok "R") c9store).2 :=
  reconcile_skips_unhandled 0 true (fun _ => Except.ok "R") c9store c9note
    (by decide) (by decide) (by decide) (by decide)

/-- A pending pdf note with an embedded data URL, as created by the PDF
capture flow while offline. -/
def c8note (id fd : String) : Note :=
  { id := id, content := "PDF Note", type := NoteType.pdf, timestamp := 1,
    fileData := some fd, mimeType := some "application/pdf",
    pendingAnalysis := some true }

/-- Remote enrichment oracle for the 3-note scenario: the call for the second
note's payload throws, the others return "Summary X". -/
def c8gen : EnrichRequest → Except Unit String := fun req =>
  if req.data == "BBB" then Except.error () else Except.ok "Summary X"

def c8store : Storage :=
  { localData := none,
    idb := some [SEED_NOTE 0, c8note "n1" "d,AAA", c8note "n2" "d,BBB",
      c8note "n3" "d,CCC"] }

/-- C8: reconciling three pending pdf notes of which the second's remote call
throws: notes 1 and 3 end up stored with pendingAnalysis false and their
content rewritten to include the enrichment result, note 2 is stored
unchanged and still flagged pending, and all three were submitted (the
failure of note 2 did not abort notes processed after it). -/
theorem reconcile_failure_isolation :
    findNote (processPendingNotes 0 true c8gen c8store).1 "n1" =
      some { c8note "n1" "d,AAA" with
             content := "[PDF Source]\n\n[Synced AI Analysis]: Summary X",
             pendingAnalysis := some false } ∧
    findNote (processPendingNotes 0 true c8gen c8store).1 "n2" =
      some (c8note "n2" "d,BBB") ∧
    (c8note "n2" "d,BBB").pendingAnalysis = some true ∧
    findNote (processPendingNotes 0 true c8gen c8store).1 "n3" =
      some { c8note "n3" "d,CCC" with
             content := "[PDF Source]\n\n[Synced AI Analysis]: Summary X",
             pendingAnalysis := some false } ∧
    (processPendingNotes 0 true c8gen c8store).2 = ["n1", "n2", "n3"] := by
  decide

end Voice20
